import Mathlib

/-!
Verification development for the CitiBike trip-analysis pipeline
(notebook src/CitiBikeAnalysis.ipynb).

The notebook is a Spark batch job: it loads raw trip rows, drops rows with
missing fields, derives a trip duration and a haversine distance column,
counts trips longer than 1800 seconds, projects revenue at 0.2 per long
trip, groups trips into four distance buckets, and sorts the bucket table
into a fixed display order before charting.

Modelling conventions:
  - the real-valued distance column expression is embedded over ℝ
    (exact real semantics of the Spark SQL expression),
  - timestamps are integers counting seconds, so the duration column
    (timestamp difference cast to long) is integer subtraction,
  - the aggregation layer (bucketing, counting, sorting) is embedded over
    ℚ so that every aggregate is computable,
  - Spark groupBy emits one (key, count) row per key that actually occurs,
    in a nondeterministic order; we model it as an encounter-order fold,
    which is one admissible order.  The notebook sorts the rows afterwards,
    so the modelled order is irrelevant to the final table.
-/

namespace CitiBike

/-! ### GeoMath: the distance column expression, exact real semantics -/

/-- Spark `radians(x)`: degrees to radians. -/
noncomputable def radians (x : ℝ) : ℝ := x * (Real.pi / 180)

/-- Earth radius constant `R = 3959` from the notebook (miles). -/
noncomputable def R : ℝ := 3959

/-- The argument of `sqrt`/`asin` in the notebook distance column:
`sin((radians(end_lat) - radians(start_lat))/2)**2 +
 cos(radians(start_lat)) * cos(radians(end_lat)) *
 sin((radians(end_lng) - radians(start_lng))/2)**2`.
No clamping is applied in the source. -/
noncomputable def haversine_a (start_lat start_lng end_lat end_lng : ℝ) : ℝ :=
  Real.sin ((radians end_lat - radians start_lat) / 2) ^ 2 +
    Real.cos (radians start_lat) * Real.cos (radians end_lat) *
      Real.sin ((radians end_lng - radians start_lng) / 2) ^ 2

/-- The notebook distance column: `R * 2 * asin(sqrt(a))`. -/
noncomputable def distance (start_lat start_lng end_lat end_lng : ℝ) : ℝ :=
  R * 2 * Real.arcsin (Real.sqrt (haversine_a start_lat start_lng end_lat end_lng))

/-- The haversine distance exactly as the specification words it:
Δφ = radians(lat2) − radians(lat1), Δλ = radians(lng2) − radians(lng1),
a = sin²(Δφ/2) + cos(radians(lat1))·cos(radians(lat2))·sin²(Δλ/2),
distance = 2 · radius · asin(√a).  Written from the spec, for comparison
with the notebook expression `distance`. -/
noncomputable def haversine_spec (lat1 lng1 lat2 lng2 radius : ℝ) : ℝ :=
  2 * radius *
    Real.arcsin (Real.sqrt
      (Real.sin ((radians lat2 - radians lat1) / 2) ^ 2 +
        Real.cos (radians lat1) * Real.cos (radians lat2) *
          Real.sin ((radians lng2 - radians lng1) / 2) ^ 2))

lemma radians_zero : radians 0 = 0 := by
  simp [radians]

lemma radians_180 : radians 180 = Real.pi := by
  unfold radians
  ring

/-- C1: at the exactly antipodal pair (0,0) and (0,180) the unclamped
intermediate `a` of the notebook distance column evaluates to exactly 1,
the boundary of the domain of `asin ∘ sqrt`: the source applies no clamp,
so any upward floating-point rounding of this quantity leaves the domain
claimed by the specification. -/
theorem haversine_a_antipodal_boundary : haversine_a 0 0 0 180 = 1 := by
  unfold haversine_a
  rw [radians_zero, radians_180]
  simp [Real.sin_pi_div_two]

/-- C2: the notebook distance column is exactly the haversine formula of
the specification, instantiated at the single configured radius 3959. -/
theorem distance_eq_haversine_spec (slat slng elat elng : ℝ) :
    distance slat slng elat elng = haversine_spec slat slng elat elng 3959 := by
  unfold distance haversine_spec haversine_a R
  ring

/-- C9: the notebook distance column at identical start and end
coordinates is exactly 0. -/
theorem distance_self (lat lng : ℝ) : distance lat lng lat lng = 0 := by
  unfold distance haversine_a
  simp

/-! ### Distance bucketing: the groupBy when-chain -/

/-- The notebook when-chain on the distance column:
`when(d <= 1, "0-1").when(d > 1 and d <= 4, "2-4")
 .when(d > 4 and d <= 9, "4-9").otherwise("10+")`. -/
def distance_bucket (d : ℚ) : String :=
  if d ≤ 1 then "0-1"
  else if 1 < d ∧ d ≤ 4 then "2-4"
  else if 4 < d ∧ d ≤ 9 then "4-9"
  else "10+"

/-- Guard of the first `when`: d ≤ 1. -/
def inBucket01 (d : ℚ) : Prop := d ≤ 1

/-- Guard of the second `when`: 1 < d and d ≤ 4. -/
def inBucket24 (d : ℚ) : Prop := 1 < d ∧ d ≤ 4

/-- Guard of the third `when`: 4 < d and d ≤ 9. -/
def inBucket49 (d : ℚ) : Prop := 4 < d ∧ d ≤ 9

/-- Range caught by `otherwise`: everything above 9. -/
def inBucket10plus (d : ℚ) : Prop := 9 < d

/-- The display order hard-coded for the chart. -/
def bucket_order : List String := ["0-1", "2-4", "4-9", "10+"]

lemma distance_bucket_mem (d : ℚ) : distance_bucket d ∈ bucket_order := by
  unfold distance_bucket bucket_order
  split
  · simp
  · split
    · simp
    · split <;> simp

/-- C3: for every non-negative distance d, exactly one of the four bucket
ranges (−∞,1], (1,4], (4,9], (9,∞) holds, and the when-chain assigns the
corresponding label. -/
theorem bucket_exhaustive_exclusive (d : ℚ) (hd : 0 ≤ d) :
    (inBucket01 d ∧ ¬inBucket24 d ∧ ¬inBucket49 d ∧ ¬inBucket10plus d ∧
        distance_bucket d = "0-1") ∨
      (¬inBucket01 d ∧ inBucket24 d ∧ ¬inBucket49 d ∧ ¬inBucket10plus d ∧
        distance_bucket d = "2-4") ∨
      (¬inBucket01 d ∧ ¬inBucket24 d ∧ inBucket49 d ∧ ¬inBucket10plus d ∧
        distance_bucket d = "4-9") ∨
      (¬inBucket01 d ∧ ¬inBucket24 d ∧ ¬inBucket49 d ∧ inBucket10plus d ∧
        distance_bucket d = "10+") := by
  unfold inBucket01 inBucket24 inBucket49 inBucket10plus distance_bucket
  rcases le_or_lt d 1 with h1 | h1
  · left
    have h4 : d ≤ 4 := by linarith
    have h9 : d ≤ 9 := by linarith
    refine ⟨h1, ?_, ?_, ?_, ?_⟩
    · rintro ⟨h, -⟩; linarith
    · rintro ⟨h, -⟩; linarith
    · intro h; linarith
    · simp [h1]
  · rcases le_or_lt d 4 with h4 | h4
    · right; left
      refine ⟨by simpa using h1, ⟨h1, h4⟩, ?_, ?_, ?_⟩
      · rintro ⟨h, -⟩; linarith
      · intro h; linarith
      · simp [h1, h4, not_le.mpr h1]
    · rcases le_or_lt d 9 with h9 | h9
      · right; right; left
        refine ⟨by simpa using by linarith, ?_, ⟨h4, h9⟩, ?_, ?_⟩
        · rintro ⟨-, h⟩; linarith
        · intro h; linarith
        · have h1n : ¬d ≤ 1 := by linarith
          have h4n : ¬d ≤ 4 := by linarith
          simp [h1n, h4n, h4, h9]
      · right; right; right
        refine ⟨by simpa using by linarith, ?_, ?_, h9, ?_⟩
        · rintro ⟨-, h⟩; linarith
        · rintro ⟨-, h⟩; linarith
        · have h1n : ¬d ≤ 1 := by linarith
          have h4n : ¬d ≤ 4 := by linarith
          have h9n : ¬d ≤ 9 := by linarith
          simp [h1n, h4n, h9n]

/-- C3 witness: instantiated at d = 5, which lands in the (4,9] range. -/
theorem bucket_exhaustive_exclusive_witness :
    0 ≤ (5 : ℚ) ∧
      ((inBucket01 5 ∧ ¬inBucket24 5 ∧ ¬inBucket49 5 ∧ ¬inBucket10plus 5 ∧
          distance_bucket 5 = "0-1") ∨
        (¬inBucket01 5 ∧ inBucket24 5 ∧ ¬inBucket49 5 ∧ ¬inBucket10plus 5 ∧
          distance_bucket 5 = "2-4") ∨
        (¬inBucket01 5 ∧ ¬inBucket24 5 ∧ inBucket49 5 ∧ ¬inBucket10plus 5 ∧
          distance_bucket 5 = "4-9") ∨
        (¬inBucket01 5 ∧ ¬inBucket24 5 ∧ ¬inBucket49 5 ∧ inBucket10plus 5 ∧
          distance_bucket 5 = "10+")) :=
  ⟨by norm_num, bucket_exhaustive_exclusive 5 (by norm_num)⟩

/-! ### RecordLoader: select/cast and na.drop -/

/-- A raw row after the select/cast step: each of the six required columns
is either a successfully cast value or null (missing in the source or
failing the cast, which Spark turns into null). -/
structure RawRow where
  started_at : Option ℤ
  ended_at : Option ℤ
  start_lat : Option ℚ
  start_lng : Option ℚ
  end_lat : Option ℚ
  end_lng : Option ℚ
deriving DecidableEq

/-- A fully populated trip record, as survives `na.drop`. -/
structure TripRecord where
  started_at : ℤ
  ended_at : ℤ
  start_lat : ℚ
  start_lng : ℚ
  end_lat : ℚ
  end_lng : ℚ
deriving DecidableEq

/-- One row survives `na.drop` exactly when all six fields are non-null. -/
def parseRow (r : RawRow) : Option TripRecord :=
  match r.started_at, r.ended_at, r.start_lat, r.start_lng, r.end_lat, r.end_lng with
  | some a, some b, some c, some d, some e, some f => some ⟨a, b, c, d, e, f⟩
  | _, _, _, _, _, _ => none

/-- `df.na.drop()`: keep the rows whose six fields are all present. -/
def na_drop (rows : List RawRow) : List TripRecord := rows.filterMap parseRow

/-- The printed dropped-row count: `count_rows - df.count()`. -/
def dropped_count (rows : List RawRow) : ℕ := rows.length - (na_drop rows).length

/-- A row has a missing or unparseable required field. -/
def hasMissing (r : RawRow) : Bool :=
  r.started_at.isNone || r.ended_at.isNone || r.start_lat.isNone ||
    r.start_lng.isNone || r.end_lat.isNone || r.end_lng.isNone

lemma parseRow_isNone (r : RawRow) : (parseRow r).isNone = hasMissing r := by
  obtain ⟨a, b, c, d, e, f⟩ := r
  rcases a <;> rcases b <;> rcases c <;> rcases d <;> rcases e <;> rcases f <;> rfl

lemma na_drop_length_add (rows : List RawRow) :
    (na_drop rows).length + (rows.filter hasMissing).length = rows.length := by
  induction rows with
  | nil => rfl
  | cons r rest ih =>
    have h := parseRow_isNone r
    unfold na_drop at *
    rcases hp : parseRow r with _ | t
    · have hm : hasMissing r = true := by rw [← h, hp]; rfl
      simp [List.filterMap_cons, hp, List.filter_cons, hm]
      omega
    · have hm : hasMissing r = false := by rw [← h, hp]; rfl
      simp [List.filterMap_cons, hp, List.filter_cons, hm]
      omega

/-- C7: on N raw rows of which K have a missing or unparseable required
field, `na.drop` outputs exactly N − K records and the printed dropped-row
count is exactly K; parsing is a total function, so a bad row only
excludes itself and never aborts the run. -/
theorem loader_drop_accounting (rows : List RawRow) :
    (na_drop rows).length = rows.length - (rows.filter hasMissing).length ∧
      dropped_count rows = (rows.filter hasMissing).length := by
  have h := na_drop_length_add rows
  unfold dropped_count
  omega

/-! ### Duration, long-trip count, revenue -/

/-- An enriched row as the aggregation cells see it: the two timestamps
(seconds) and the materialized distance column.  The derivation of the
distance value from the coordinates is the real-valued GeoMath layer
above; the aggregation claims consume the column as a rational number. -/
structure TripRow where
  started_at : ℤ
  ended_at : ℤ
  distance : ℚ
deriving DecidableEq

/-- The `tripduration` column: `(ended_at - started_at).cast("long")`. -/
def tripduration (r : TripRow) : ℤ := r.ended_at - r.started_at

/-- `df.filter(col("tripduration") > 1800)`. -/
def long_trips (rs : List TripRow) : List TripRow :=
  rs.filter (fun r => 1800 < tripduration r)

/-- `num_trips = long_trips.count()`. -/
def num_trips (rs : List TripRow) : ℕ := (long_trips rs).length

/-- `expected_revenue = num_trips * 0.2`. -/
def expected_revenue (n : ℕ) : ℚ := n * 0.2

/-- C6: the revenue projection is exactly the long-trip count times 0.20,
with no rounding anywhere in the computation; in particular at counts 0,
1 and 1000 it is exactly 0, 0.20 and 200. -/
theorem expected_revenue_exact :
    (∀ n : ℕ, expected_revenue n = n * (20 / 100)) ∧
      expected_revenue 0 = 0 ∧ expected_revenue 1 = 20 / 100 ∧
      expected_revenue 1000 = 200 := by
  refine ⟨fun n => ?_, by norm_num [expected_revenue], by norm_num [expected_revenue],
    by norm_num [expected_revenue]⟩
  norm_num [expected_revenue]

/-! ### groupBy ... count and the categorical sort

Spark `groupBy(bucket).count()` returns one row per key that occurs in the
data, in an order that is not guaranteed; we model the grouping as an
encounter-order fold over the rows, one admissible order.  The notebook
then makes the bucket column an ordered pandas categorical over
`bucket_order` and sorts, which pins the final order. -/

/-- Add one occurrence of key `k` to a grouped (key, count) table. -/
def addKey : List (String × ℕ) → String → List (String × ℕ)
  | [], k => [(k, 1)]
  | (q, n) :: rest, k =>
      if k = q then (q, n + 1) :: rest else (q, n) :: addKey rest k

/-- The grouped table `bucket_counts` of the notebook, keyed by the
when-chain label of each distance. -/
def bucket_counts (ds : List ℚ) : List (String × ℕ) :=
  ds.foldl (fun acc d => addKey acc (distance_bucket d)) []

/-- Position of a label in the ordered categorical `bucket_order`; the
chart sort key. -/
def catIndex (s : String) : ℕ :=
  if s = "0-1" then 0 else if s = "2-4" then 1 else if s = "4-9" then 2 else 3

/-- `sort_values("distance_bucket")` with the ordered categorical. -/
def sortBuckets (rows : List (String × ℕ)) : List (String × ℕ) :=
  List.insertionSort (fun a b => catIndex a.1 ≤ catIndex b.1) rows

/-- The final sorted bucket table `bucket_pd` handed to the chart. -/
def bucket_pd (ds : List ℚ) : List (String × ℕ) :=
  sortBuckets (bucket_counts ds)

/-- Number of distances that the when-chain maps to label `l`. -/
def countLabel (ds : List ℚ) (l : String) : ℕ :=
  (ds.filter (fun d => distance_bucket d = l)).length

/-- The bucket table described by the spec amended to what the code does:
the labels in display order, restricted to the buckets that actually
received a trip, each with its count. -/
def displayCounts (ds : List ℚ) : List (String × ℕ) :=
  (bucket_order.filter (fun l => countLabel ds l ≠ 0)).map fun l => (l, countLabel ds l)

/-- Keys of a grouped table. -/
def tableKeys (A : List (String × ℕ)) : List String := A.map Prod.fst

/-- Total count a grouped table assigns to a label (sum over its rows). -/
def tableWeight (A : List (String × ℕ)) (l : String) : ℕ :=
  (A.map fun p => if p.1 = l then p.2 else 0).sum

lemma tableWeight_nil (l : String) : tableWeight [] l = 0 := rfl

lemma tableWeight_cons (p : String × ℕ) (A : List (String × ℕ)) (l : String) :
    tableWeight (p :: A) l = (if p.1 = l then p.2 else 0) + tableWeight A l := by
  simp [tableWeight]

lemma tableWeight_addKey (A : List (String × ℕ)) (k l : String) :
    tableWeight (addKey A k) l = tableWeight A l + (if k = l then 1 else 0) := by
  induction A with
  | nil =>
    by_cases h : k = l <;> simp [addKey, tableWeight, h]
  | cons p rest ih =>
    obtain ⟨q, n⟩ := p
    by_cases hk : k = q
    · subst hk
      by_cases hl : k = l <;>
        simp [addKey, tableWeight_cons, hl] <;> omega
    · rw [show addKey ((q, n) :: rest) k = (q, n) :: addKey rest k by
        simp [addKey, hk]]
      rw [tableWeight_cons, tableWeight_cons, ih]
      omega

lemma mem_tableKeys_addKey (A : List (String × ℕ)) (k l : String) :
    l ∈ tableKeys (addKey A k) ↔ l ∈ tableKeys A ∨ l = k := by
  induction A with
  | nil => simp [addKey, tableKeys, eq_comm]
  | cons p rest ih =>
    obtain ⟨q, n⟩ := p
    by_cases hk : k = q
    · subst hk
      simp [addKey, tableKeys]
      tauto
    · rw [show addKey ((q, n) :: rest) k = (q, n) :: addKey rest k by
        simp [addKey, hk]]
      simp [tableKeys] at ih ⊢
      tauto

lemma tableKeys_nodup_addKey (A : List (String × ℕ)) (k : String)
    (h : (tableKeys A).Nodup) : (tableKeys (addKey A k)).Nodup := by
  induction A with
  | nil => simp [addKey, tableKeys]
  | cons p rest ih =>
    obtain ⟨q, n⟩ := p
    simp [tableKeys] at h
    by_cases hk : k = q
    · subst hk
      simpa [addKey, tableKeys] using h
    · rw [show addKey ((q, n) :: rest) k = (q, n) :: addKey rest k by
        simp [addKey, hk]]
      have hq : q ∉ tableKeys (addKey rest k) := by
        rw [mem_tableKeys_addKey]
        push_neg
        exact ⟨by simpa [tableKeys] using h.1, fun hqk => hk hqk.symm⟩
      simp [tableKeys] at hq ⊢
      exact ⟨hq, ih h.2⟩

lemma addKey_pos (A : List (String × ℕ)) (k : String)
    (h : ∀ p ∈ A, p.2 ≠ 0) : ∀ p ∈ addKey A k, p.2 ≠ 0 := by
  induction A with
  | nil => simp [addKey]
  | cons p rest ih =>
    obtain ⟨q, n⟩ := p
    by_cases hk : k = q
    · subst hk
      intro x hx
      rcases (by simpa [addKey] using hx : x = (k, n + 1) ∨ x ∈ rest) with h1 | h1
      · simp [h1]
      · exact h x (List.mem_cons_of_mem _ h1)
    · rw [show addKey ((q, n) :: rest) k = (q, n) :: addKey rest k by
        simp [addKey, hk]]
      intro x hx
      rcases List.mem_cons.mp hx with h1 | h1
      · exact h x (h1 ▸ List.mem_cons_self _ _)
      · exact ih (fun p hp => h p (List.mem_cons_of_mem _ hp)) x h1

lemma countLabel_nil (l : String) : countLabel [] l = 0 := rfl

lemma countLabel_cons (d : ℚ) (ds : List ℚ) (l : String) :
    countLabel (d :: ds) l =
      (if distance_bucket d = l then 1 else 0) + countLabel ds l := by
  by_cases h : distance_bucket d = l
  · simp [countLabel, List.filter_cons, h]
    omega
  · simp [countLabel, List.filter_cons, h]

lemma tableWeight_fold (ds : List ℚ) :
    ∀ acc : List (String × ℕ), ∀ l,
      tableWeight (ds.foldl (fun acc d => addKey acc (distance_bucket d)) acc) l =
        tableWeight acc l + countLabel ds l := by
  induction ds with
  | nil => intro acc l; simp [countLabel_nil]
  | cons d rest ih =>
    intro acc l
    rw [List.foldl_cons, ih, tableWeight_addKey, countLabel_cons]
    omega

lemma mem_tableKeys_fold (ds : List ℚ) :
    ∀ acc : List (String × ℕ), ∀ l,
      l ∈ tableKeys (ds.foldl (fun acc d => addKey acc (distance_bucket d)) acc) ↔
        l ∈ tableKeys acc ∨ countLabel ds l ≠ 0 := by
  induction ds with
  | nil => intro acc l; simp [countLabel_nil]
  | cons d rest ih =>
    intro acc l
    rw [List.foldl_cons, ih, mem_tableKeys_addKey, countLabel_cons]
    by_cases h : distance_bucket d = l
    · have h1 : (if distance_bucket d = l then 1 else 0) + countLabel rest l ≠ 0 := by
        simp [h]
      have h2 : l = distance_bucket d := h.symm
      tauto
    · have h1 : (if distance_bucket d = l then 1 else 0) + countLabel rest l =
          countLabel rest l := by simp [h]
      rw [h1]
      have h2 : l ≠ distance_bucket d := fun he => h he.symm
      tauto

lemma tableKeys_nodup_fold (ds : List ℚ) :
    ∀ acc : List (String × ℕ), (tableKeys acc).Nodup →
      (tableKeys (ds.foldl (fun acc d => addKey acc (distance_bucket d)) acc)).Nodup := by
  induction ds with
  | nil => intro acc h; simpa using h
  | cons d rest ih =>
    intro acc h
    exact ih _ (tableKeys_nodup_addKey _ _ h)

lemma fold_pos (ds : List ℚ) :
    ∀ acc : List (String × ℕ), (∀ p ∈ acc, p.2 ≠ 0) →
      ∀ p ∈ ds.foldl (fun acc d => addKey acc (distance_bucket d)) acc, p.2 ≠ 0 := by
  induction ds with
  | nil => intro acc h; simpa using h
  | cons d rest ih =>
    intro acc h
    exact ih _ (addKey_pos _ _ h)

lemma tableKeys_cons (p : String × ℕ) (A : List (String × ℕ)) :
    tableKeys (p :: A) = p.1 :: tableKeys A := rfl

lemma tableWeight_eq_zero (A : List (String × ℕ)) (l : String)
    (h : l ∉ tableKeys A) : tableWeight A l = 0 := by
  induction A with
  | nil => rfl
  | cons p rest ih =>
    rw [tableKeys_cons, List.mem_cons] at h
    push_neg at h
    have h1 : p.1 ≠ l := fun he => h.1 he.symm
    rw [tableWeight_cons, ih h.2]
    simp [h1]

lemma tableWeight_of_mem (A : List (String × ℕ)) (l : String) (n : ℕ)
    (hn : (tableKeys A).Nodup) (h : (l, n) ∈ A) : tableWeight A l = n := by
  induction A with
  | nil => simp at h
  | cons p rest ih =>
    rw [tableKeys_cons, List.nodup_cons] at hn
    rcases List.mem_cons.mp h with h1 | h1
    · rw [← h1] at hn ⊢
      rw [tableWeight_cons, tableWeight_eq_zero rest l hn.1]
      simp
    · have hql : p.1 ≠ l := by
        intro hq
        exact hn.1 (hq ▸ List.mem_map_of_mem Prod.fst h1)
      rw [tableWeight_cons, ih hn.2 h1]
      simp [hql]

lemma mem_of_tableWeight (A : List (String × ℕ)) (l : String)
    (hn : (tableKeys A).Nodup) (h : tableWeight A l ≠ 0) :
    (l, tableWeight A l) ∈ A := by
  have hl : l ∈ tableKeys A := by
    by_contra hc
    exact h (tableWeight_eq_zero A l hc)
  obtain ⟨p, hp, hfst⟩ := List.mem_map.mp hl
  have hpe : p = (l, p.2) := by
    rw [Prod.ext_iff]
    exact ⟨hfst, rfl⟩
  rw [hpe] at hp
  have := tableWeight_of_mem A l p.2 hn hp
  rw [this]
  exact hp

/-- Membership in the grouped table: exactly the labels with a nonzero
number of occurrences, each with that number. -/
lemma mem_bucket_counts (ds : List ℚ) (l : String) (n : ℕ) :
    (l, n) ∈ bucket_counts ds ↔ countLabel ds l = n ∧ n ≠ 0 := by
  have hnodup : (tableKeys (bucket_counts ds)).Nodup :=
    tableKeys_nodup_fold ds [] (by simp [tableKeys])
  have hw : ∀ m, tableWeight (bucket_counts ds) m = countLabel ds m := by
    intro m
    have := tableWeight_fold ds [] m
    simpa [bucket_counts, tableWeight_nil] using this
  constructor
  · intro h
    have h1 := tableWeight_of_mem _ _ _ hnodup h
    have h2 := fold_pos ds [] (by simp) _ h
    exact ⟨by rw [← hw l, h1], by simpa using h2⟩
  · rintro ⟨hcl, hne⟩
    have := mem_of_tableWeight (bucket_counts ds) l hnodup (by rw [hw]; omega)
    rwa [hw, hcl] at this

/-- Membership in the spec-side display table. -/
lemma mem_displayCounts (ds : List ℚ) (l : String) (n : ℕ) :
    (l, n) ∈ displayCounts ds ↔ countLabel ds l = n ∧ n ≠ 0 := by
  unfold displayCounts
  simp only [List.mem_map, List.mem_filter]
  constructor
  · rintro ⟨m, ⟨hmem, hne⟩, heq⟩
    obtain ⟨hm, hn⟩ := Prod.mk.injEq .. ▸ heq
    subst hm hn
    exact ⟨rfl, by simpa using hne⟩
  · rintro ⟨hcl, hne⟩
    refine ⟨l, ⟨?_, by simp [hcl, hne]⟩, by simp [hcl]⟩
    have : ∃ d ∈ ds, distance_bucket d = l := by
      by_contra hc
      push_neg at hc
      have : countLabel ds l = 0 := by
        unfold countLabel
        rw [List.filter_eq_nil_iff.mpr]
        · rfl
        · intro d hd
          simpa using hc d hd
      omega
    obtain ⟨d, -, rfl⟩ := this
    exact distance_bucket_mem d

lemma countLabel_ne_zero_mem (ds : List ℚ) (l : String)
    (h : countLabel ds l ≠ 0) : l ∈ bucket_order := by
  have hex : ∃ d ∈ ds, distance_bucket d = l := by
    by_contra hc
    push_neg at hc
    have hz : countLabel ds l = 0 := by
      unfold countLabel
      rw [List.filter_eq_nil_iff.mpr]
      · rfl
      · intro d hd
        simpa using hc d hd
    omega
  obtain ⟨d, -, rfl⟩ := hex
  exact distance_bucket_mem d

lemma catIndex_inj (s t : String) (hs : s ∈ bucket_order) (ht : t ∈ bucket_order)
    (h : catIndex s = catIndex t) : s = t := by
  fin_cases hs <;> fin_cases ht <;> revert h <;> decide

/-- A bucket table that is sorted by category index, has pairwise distinct
keys, and draws its keys from the four bucket labels, is uniquely
determined up to permutation. -/
lemma sorted_table_unique :
    ∀ L1 L2 : List (String × ℕ), L1.Perm L2 →
      L1.Pairwise (fun a b => catIndex a.1 ≤ catIndex b.1) →
      L2.Pairwise (fun a b => catIndex a.1 ≤ catIndex b.1) →
      (tableKeys L1).Nodup →
      (∀ l ∈ tableKeys L1, l ∈ bucket_order) → L1 = L2 := by
  intro L1
  induction L1 with
  | nil =>
    intro L2 hp _ _ _ _
    exact (hp.symm.eq_nil).symm
  | cons a t1 ih =>
    intro L2 hp h1 h2 hnd hsub
    cases L2 with
    | nil => exact absurd hp.length_eq (by simp)
    | cons b t2 =>
      by_cases hab : a = b
      · subst hab
        have ht : t1 = t2 := by
          refine ih t2 hp.cons_inv (List.pairwise_cons.mp h1).2
            (List.pairwise_cons.mp h2).2 ?_ ?_
          · exact ((tableKeys_cons a t1) ▸ hnd).of_cons
          · intro l hl
            exact hsub l (by rw [tableKeys_cons]; exact List.mem_cons_of_mem _ hl)
        rw [ht]
      · exfalso
        have hb1 : b ∈ t1 := by
          rcases List.mem_cons.mp (hp.symm.subset (List.mem_cons_self b t2)) with h | h
          · exact absurd h.symm hab
          · exact h
        have ha2 : a ∈ t2 := by
          rcases List.mem_cons.mp (hp.subset (List.mem_cons_self a t1)) with h | h
          · exact absurd h hab
          · exact h
        have le1 : catIndex a.1 ≤ catIndex b.1 := (List.pairwise_cons.mp h1).1 b hb1
        have le2 : catIndex b.1 ≤ catIndex a.1 := (List.pairwise_cons.mp h2).1 a ha2
        have hma : a.1 ∈ bucket_order := hsub a.1 (by rw [tableKeys_cons]; exact List.mem_cons_self _ _)
        have hmb : b.1 ∈ bucket_order := hsub b.1 (by
          rw [tableKeys_cons]
          exact List.mem_cons_of_mem _ (List.mem_map_of_mem Prod.fst hb1))
        have hkey : a.1 = b.1 := catIndex_inj _ _ hma hmb (le_antisymm le1 le2)
        have hnm : a.1 ∉ tableKeys t1 :=
          (List.nodup_cons.mp ((tableKeys_cons a t1) ▸ hnd)).1
        exact hnm (hkey ▸ List.mem_map_of_mem Prod.fst hb1)

/-- Central characterization of the sorted bucket table: for every input
it equals the display-order list of (label, count) pairs restricted to the
labels whose count is nonzero. -/
lemma bucket_pd_eq_displayCounts (ds : List ℚ) : bucket_pd ds = displayCounts ds := by
  haveI instTot : IsTotal (String × ℕ) (fun a b => catIndex a.1 ≤ catIndex b.1) :=
    ⟨fun a b => Nat.le_total _ _⟩
  haveI instTrans : IsTrans (String × ℕ) (fun a b => catIndex a.1 ≤ catIndex b.1) :=
    ⟨fun _ _ _ hab hbc => le_trans hab hbc⟩
  have hperm1 : (bucket_pd ds).Perm (bucket_counts ds) :=
    List.perm_insertionSort _ _
  have hkeysNodupBC : (tableKeys (bucket_counts ds)).Nodup :=
    tableKeys_nodup_fold ds [] (by simp [tableKeys])
  have hNodupBC : (bucket_counts ds).Nodup := List.Nodup.of_map _ hkeysNodupBC
  have hkeysDC : tableKeys (displayCounts ds) =
      bucket_order.filter (fun l => countLabel ds l ≠ 0) := by
    unfold tableKeys displayCounts
    rw [List.map_map]
    simp [Function.comp_def]
  have hOrderNodup : bucket_order.Nodup := by decide
  have hkeysNodupDC : (tableKeys (displayCounts ds)).Nodup := by
    rw [hkeysDC]
    exact hOrderNodup.filter _
  have hNodupDC : (displayCounts ds).Nodup := List.Nodup.of_map _ hkeysNodupDC
  have hperm2 : (bucket_counts ds).Perm (displayCounts ds) := by
    rw [List.perm_ext_iff_of_nodup hNodupBC hNodupDC]
    rintro ⟨l, n⟩
    rw [mem_bucket_counts, mem_displayCounts]
  have hsorted1 : (bucket_pd ds).Pairwise (fun a b => catIndex a.1 ≤ catIndex b.1) :=
    List.sorted_insertionSort _ _
  have hsorted2 : (displayCounts ds).Pairwise (fun a b => catIndex a.1 ≤ catIndex b.1) := by
    unfold displayCounts
    rw [List.pairwise_map]
    have hord : bucket_order.Pairwise (fun a b => catIndex a < catIndex b) := by decide
    exact ((hord.filter _).imp fun h => le_of_lt h)
  have hkeysNodup1 : (tableKeys (bucket_pd ds)).Nodup :=
    ((hperm1.map Prod.fst).nodup_iff).mpr hkeysNodupBC
  have hsub1 : ∀ l ∈ tableKeys (bucket_pd ds), l ∈ bucket_order := by
    intro l hl
    have hl2 : l ∈ tableKeys (bucket_counts ds) := (hperm1.map Prod.fst).subset hl
    have := (mem_tableKeys_fold ds [] l).mp (by simpa [bucket_counts] using hl2)
    rcases this with h | h
    · simp [tableKeys] at h
    · exact countLabel_ne_zero_mem ds l h
  exact sorted_table_unique (bucket_pd ds) (displayCounts ds)
    (hperm1.trans hperm2) hsorted1 hsorted2 hkeysNodup1 hsub1

/-- C4 counterexample: on the end-to-end scenario distances 0.5, 3.0 and
15.0 miles the sorted bucket table has only three rows; the empty "4-9"
bucket is omitted entirely rather than reported with count 0, so the
table is not the four-label sequence the claim requires. -/
theorem bucket_pd_scenario_drops_empty :
    bucket_pd [1/2, 3, 15] = [("0-1", 1), ("2-4", 1), ("10+", 1)] ∧
      bucket_pd [1/2, 3, 15] ≠ [("0-1", 1), ("2-4", 1), ("4-9", 0), ("10+", 1)] := by
  have hb1 : distance_bucket (2⁻¹) = "0-1" := by norm_num [distance_bucket]
  have hb2 : distance_bucket 3 = "2-4" := by norm_num [distance_bucket]
  have hb3 : distance_bucket 15 = "10+" := by norm_num [distance_bucket]
  have h01 : countLabel [2⁻¹, 3, 15] "0-1" = 1 := by
    simp [countLabel, hb1, hb2, hb3]
  have h24 : countLabel [2⁻¹, 3, 15] "2-4" = 1 := by
    simp [countLabel, hb1, hb2, hb3]
  have h49 : countLabel [2⁻¹, 3, 15] "4-9" = 0 := by
    simp [countLabel, hb1, hb2, hb3]
  have h10 : countLabel [2⁻¹, 3, 15] "10+" = 1 := by
    simp [countLabel, hb1, hb2, hb3]
  rw [bucket_pd_eq_displayCounts]
  constructor
  · simp [displayCounts, bucket_order, h01, h24, h49, h10]
  · simp [displayCounts, bucket_order, h01, h24, h49, h10]

/-- C4 amended: for every input the sorted table handed to the renderer is
the fixed display order "0-1", "2-4", "4-9", "10+" restricted to the
buckets that received at least one trip, each paired with its count;
buckets with zero trips are omitted, not reported as 0. -/
theorem bucket_pd_display_order (ds : List ℚ) :
    bucket_pd ds =
      (bucket_order.filter (fun l => countLabel ds l ≠ 0)).map
        fun l => (l, countLabel ds l) :=
  bucket_pd_eq_displayCounts ds

/-! ### Long trips versus bucketing, and the full aggregate -/

lemma distance_bucket_cases (d : ℚ) :
    distance_bucket d = "0-1" ∨ distance_bucket d = "2-4" ∨
      distance_bucket d = "4-9" ∨ distance_bucket d = "10+" := by
  unfold distance_bucket
  split
  · exact Or.inl rfl
  · split
    · exact Or.inr (Or.inl rfl)
    · split
      · exact Or.inr (Or.inr (Or.inl rfl))
      · exact Or.inr (Or.inr (Or.inr rfl))

lemma sum_countLabel (ds : List ℚ) :
    (bucket_order.map (countLabel ds)).sum = ds.length := by
  induction ds with
  | nil => simp [countLabel_nil, bucket_order]
  | cons d rest ih =>
    simp only [bucket_order, List.map_cons, List.map_nil, List.sum_cons,
      List.sum_nil] at ih ⊢
    rcases distance_bucket_cases d with h | h | h | h <;>
      rw [countLabel_cons, countLabel_cons, countLabel_cons, countLabel_cons, h] <;>
      simp <;> omega

lemma sum_filtered (c : String → ℕ) (L : List String) :
    ((L.filter fun l => c l ≠ 0).map c).sum = (L.map c).sum := by
  induction L with
  | nil => rfl
  | cons l rest ih =>
    rw [List.filter_cons]
    by_cases h : c l = 0
    · rw [if_neg (by simp [h])]
      rw [ih, List.map_cons, List.sum_cons, h, Nat.zero_add]
    · rw [if_pos (by simp [h])]
      rw [List.map_cons, List.sum_cons, ih, List.map_cons, List.sum_cons]

/-- The counts displayed by the final table add up to the number of input
rows: dropping the zero-count buckets loses nothing. -/
lemma bucket_pd_total (ds : List ℚ) :
    ((bucket_pd ds).map Prod.snd).sum = ds.length := by
  rw [bucket_pd_eq_displayCounts]
  unfold displayCounts
  rw [List.map_map]
  have h1 : (Prod.snd ∘ fun l => (l, countLabel ds l)) = countLabel ds := rfl
  rw [h1, sum_filtered]
  exact sum_countLabel ds

/-- The materialized distance column of the enriched frame. -/
def trip_distances (rs : List TripRow) : List ℚ := rs.map TripRow.distance

/-- C5: the long-trip count is the number of records whose duration column
strictly exceeds 1800; a record with non-positive duration is never in the
filtered long-trip frame, yet its bucket row still appears in the final
bucket table and the table counts still add up to every input record. -/
theorem long_trip_count_strict (rs : List TripRow) (r : TripRow)
    (hr : r ∈ rs) (hd : tripduration r ≤ 0) :
    num_trips rs = (rs.filter fun x => 1800 < tripduration x).length ∧
      r ∉ long_trips rs ∧
      (distance_bucket r.distance,
          countLabel (trip_distances rs) (distance_bucket r.distance)) ∈
        bucket_pd (trip_distances rs) ∧
      ((bucket_pd (trip_distances rs)).map Prod.snd).sum = rs.length := by
  refine ⟨rfl, ?_, ?_, ?_⟩
  · intro hmem
    have h := List.of_mem_filter hmem
    simp at h
    omega
  · have hmemd : r.distance ∈ trip_distances rs :=
      List.mem_map_of_mem TripRow.distance hr
    have hne : countLabel (trip_distances rs) (distance_bucket r.distance) ≠ 0 := by
      unfold countLabel
      have hmf : r.distance ∈ (trip_distances rs).filter
          (fun d => distance_bucket d = distance_bucket r.distance) :=
        List.mem_filter.mpr ⟨hmemd, by simp⟩
      have hpos := List.length_pos_of_mem hmf
      omega
    rw [bucket_pd_eq_displayCounts]
    exact (mem_displayCounts _ _ _).mpr ⟨rfl, hne⟩
  · rw [bucket_pd_total]
    unfold trip_distances
    rw [List.length_map]

/-- C5 witness: two records, one with duration −5 (end before start) and
distance 3, one with duration 2000 and distance 15. -/
theorem long_trip_count_strict_witness :
    (⟨0, -5, 3⟩ : TripRow) ∈ ([⟨0, -5, 3⟩, ⟨0, 2000, 15⟩] : List TripRow) ∧
      tripduration ⟨0, -5, 3⟩ ≤ 0 ∧
      (num_trips [⟨0, -5, 3⟩, ⟨0, 2000, 15⟩] =
          (([⟨0, -5, 3⟩, ⟨0, 2000, 15⟩] : List TripRow).filter
            fun x => 1800 < tripduration x).length ∧
        (⟨0, -5, 3⟩ : TripRow) ∉ long_trips [⟨0, -5, 3⟩, ⟨0, 2000, 15⟩] ∧
        (distance_bucket (⟨0, -5, 3⟩ : TripRow).distance,
            countLabel (trip_distances [⟨0, -5, 3⟩, ⟨0, 2000, 15⟩])
              (distance_bucket (⟨0, -5, 3⟩ : TripRow).distance)) ∈
          bucket_pd (trip_distances [⟨0, -5, 3⟩, ⟨0, 2000, 15⟩]) ∧
        ((bucket_pd (trip_distances [⟨0, -5, 3⟩, ⟨0, 2000, 15⟩])).map Prod.snd).sum =
          ([⟨0, -5, 3⟩, ⟨0, 2000, 15⟩] : List TripRow).length) :=
  ⟨by decide, by decide,
    long_trip_count_strict [⟨0, -5, 3⟩, ⟨0, 2000, 15⟩] ⟨0, -5, 3⟩ (by decide) (by decide)⟩

/-- The aggregate handed onward: long-trip count, projected revenue, and
the sorted bucket table. -/
structure AggregateResult where
  long_trip_count : ℕ
  expected_revenue : ℚ
  bucket_counts : List (String × ℕ)
deriving DecidableEq

/-- The whole pipeline tail over the enriched rows, as the notebook cells
compute it.  There is no branch for empty input anywhere in the source. -/
def pipeline_aggregate (rs : List TripRow) : AggregateResult :=
  { long_trip_count := num_trips rs
    expected_revenue := CitiBike.expected_revenue (num_trips rs)
    bucket_counts := bucket_pd (trip_distances rs) }

/-- C8: on empty surviving input the pipeline silently returns the
ordinary zero aggregate (count 0, revenue 0, empty bucket table); no
explicit empty-result condition exists in the code to be surfaced. -/
theorem pipeline_empty_silent :
    pipeline_aggregate [] =
      { long_trip_count := 0, expected_revenue := 0, bucket_counts := [] } := by
  unfold pipeline_aggregate
  have h1 : num_trips [] = 0 := rfl
  have h2 : bucket_pd (trip_distances []) = [] := rfl
  rw [h1, h2]
  have h3 : CitiBike.expected_revenue 0 = 0 := by
    norm_num [CitiBike.expected_revenue]
  rw [h3]

/-! ### NaN distances and the otherwise branch

The distance column is a double and can be NaN.  Spark SQL orders NaN as
greater than every other numeric value, so the three guarded comparisons
of the when-chain are modelled on a value domain extended with NaN. -/

/-- A double-typed distance cell: NaN or a numeric value. -/
inductive DistVal
  | nan : DistVal
  | val : ℚ → DistVal
deriving DecidableEq

/-- Spark SQL `<=` against a literal: NaN is greater than any value. -/
def dLe : DistVal → ℚ → Bool
  | .nan, _ => false
  | .val d, q => d ≤ q

/-- Spark SQL `>` against a literal: NaN is greater than any value. -/
def dGt : DistVal → ℚ → Bool
  | .nan, _ => true
  | .val d, q => q < d

/-- The when-chain evaluated on a possibly-NaN distance cell. -/
def distance_bucketN (x : DistVal) : String :=
  if dLe x 1 then "0-1"
  else if dGt x 1 && dLe x 4 then "2-4"
  else if dGt x 4 && dLe x 9 then "4-9"
  else "10+"

/-- groupBy count of a label over possibly-NaN distance cells. -/
def countLabelN (xs : List DistVal) (l : String) : ℕ :=
  (xs.filter fun x => distance_bucketN x = l).length

/-- C10: a NaN distance fails all three guarded ranges of the when-chain,
so the otherwise branch labels it "10+"; on numeric cells the chain agrees
with the plain bucket function, and a NaN record is silently counted in
the "10+" group rather than rejected. -/
theorem nan_distance_in_10plus :
    distance_bucketN DistVal.nan = "10+" ∧
      (∀ d : ℚ, distance_bucketN (DistVal.val d) = distance_bucket d) ∧
      ∀ xs : List DistVal,
        countLabelN (DistVal.nan :: xs) "10+" = countLabelN xs "10+" + 1 := by
  refine ⟨rfl, ?_, ?_⟩
  · intro d
    unfold distance_bucketN distance_bucket dLe dGt
    rcases le_or_lt d 1 with h1 | h1
    · simp [h1]
    · rcases le_or_lt d 4 with h4 | h4
      · simp [h1, h4, not_le.mpr h1]
      · rcases le_or_lt d 9 with h9 | h9
        · simp [h1, h4, h9, not_le.mpr h1, not_le.mpr h4]
        · simp [h1, h4, h9, not_le.mpr h1, not_le.mpr h4, not_le.mpr h9]
  · intro xs
    have hn : distance_bucketN DistVal.nan = "10+" := rfl
    simp [countLabelN, List.filter_cons, hn]

end CitiBike
